import Mathlib

set_option maxHeartbeats 1000000
set_option maxRecDepth 16384

namespace BankPromo

/-- A cell value of the loaded dataframe.  After the preprocessing described in the
app's intro text, every column of `datasets/data_full.csv` holds either a number
(modelled as `Int`) or a categorical string. -/
inductive Value where
  | int : Int → Value
  | str : String → Value
deriving DecidableEq, Repr

/-- The fixed column schema of the dataset (the 19 columns listed in `data_types`
inside `phik_data`, src/streamlit_app.py lines 55-74, plus `GEN_INDUSTRY` and
`GEN_TITLE` used in tab 2). -/
inductive Field where
  | TARGET
  | AGE
  | GENDER
  | EDUCATION
  | MARITAL_STATUS
  | CHILD_TOTAL
  | DEPENDANTS
  | SOCSTATUS_WORK_FL
  | SOCSTATUS_PENS_FL
  | FL_PRESENCE_FL
  | OWN_AUTO
  | WORK_TIME
  | FAMILY_INCOME
  | PERSONAL_INCOME
  | LOAN_NUM_TOTAL
  | LOAN_NUM_CLOSED
  | CREDIT
  | TERM
  | FST_PAYMENT
  | GEN_INDUSTRY
  | GEN_TITLE
deriving DecidableEq, Repr, Fintype

/-- A dataframe row: a valuation of every field of the schema. -/
abbrev Row := Field → Value

/-- A pandas DataFrame, as used by the app: an ordered list of named columns and an
ordered list of rows. -/
structure Table where
  cols : List Field
  rows : List Row

/-- The full column list of the loaded dataframe. -/
def allCols : List Field :=
  [Field.TARGET, Field.AGE, Field.GENDER, Field.EDUCATION, Field.MARITAL_STATUS,
   Field.CHILD_TOTAL, Field.DEPENDANTS, Field.SOCSTATUS_WORK_FL, Field.SOCSTATUS_PENS_FL,
   Field.FL_PRESENCE_FL, Field.OWN_AUTO, Field.WORK_TIME, Field.FAMILY_INCOME,
   Field.PERSONAL_INCOME, Field.LOAN_NUM_TOTAL, Field.LOAN_NUM_CLOSED, Field.CREDIT,
   Field.TERM, Field.FST_PAYMENT, Field.GEN_INDUSTRY, Field.GEN_TITLE]

/-- Source line 6: `DATA_PATH = 'datasets/data_full.csv'`. -/
def DATA_PATH : String := "datasets/data_full.csv"

/-- Model of `load_data` (src/streamlit_app.py lines 21-32).  `fs` models the
filesystem: the table parsed from the CSV stored at each path.  The body is
`data = pd.read_csv(DATA_PATH)`, which reads the module constant `DATA_PATH`;
the `data_path` argument is declared and documented but never used. -/
def load_data (fs : String → Table) (data_path : String) : Table :=
  fs DATA_PATH

/-- Model of `filter_data` (src/streamlit_app.py lines 35-45):
`return df[df["TARGET"] == target_selected]`.  Pandas boolean row indexing keeps
the columns and, in original order, exactly the rows whose `TARGET` cell equals
the given integer; for any non-matching integer it returns an empty frame rather
than raising. -/
def filter_data (df : Table) (target_selected : Int) : Table :=
  ⟨df.cols, df.rows.filter (fun r => decide (r Field.TARGET = Value.int target_selected))⟩

/-- The values of one column of a table (a pandas `Series`), e.g.
`source.GEN_INDUSTRY`. -/
def colOf (t : Table) (f : Field) : List Value :=
  t.rows.map (fun r => r f)

/-- Boolean-mask row selection `t[t.f != s]` used at src/streamlit_app.py
lines 304 and 316 to drop the `'not_applicable'` sentinel rows. -/
def mask_ne (t : Table) (f : Field) (s : String) : Table :=
  ⟨t.cols, t.rows.filter (fun r => decide (r f ≠ Value.str s))⟩

/-- Pandas column assignment `t[c] = t.apply-derived series` (src/streamlit_app.py
lines 307 and 319): every row's cell at column `c` is replaced by `g` applied to
the row; all other cells are untouched.  The column already exists in the schema,
so the column list is unchanged. -/
def set_column (t : Table) (c : Field) (g : Row → Value) : Table :=
  ⟨t.cols, t.rows.map (fun r => fun f => if f = c then g r else r f)⟩

/-- Helper for first-seen deduplication: `uniqueAux seen l` lists, in order, the
elements of `l` that are not in `seen`, keeping only the first copy of each. -/
def uniqueAux (seen : List Value) : List Value → List Value
  | [] => []
  | v :: vs => if v ∈ seen then uniqueAux seen vs else v :: uniqueAux (v :: seen) vs

/-- The distinct values of a list in first-occurrence order (the index of a pandas
`value_counts` before sorting: one entry per distinct value). -/
def uniqueVals (l : List Value) : List Value := uniqueAux [] l

/-- The number of occurrences of `v` in `l`. -/
def countVal (l : List Value) (v : Value) : Nat :=
  (l.filter (fun w => decide (w = v))).length

/-- Model of `Series.value_counts()` as used throughout the app: one `(value, count)`
entry per distinct value of the column, sorted by count descending; equal counts
keep first-occurrence order (stable insertion into the descending order). -/
def value_counts (l : List Value) : List (Value × Nat) :=
  List.insertionSort (fun a b => b.2 ≤ a.2) ((uniqueVals l).map (fun v => (v, countVal l v)))

/-- `value_counts()[:10].index.tolist()` (src/streamlit_app.py lines 306 and 318):
the values of the `n` most frequent entries. -/
def top_values (l : List Value) (n : Nat) : List Value :=
  ((value_counts l).take n).map Prod.fst

/-- The lambda of src/streamlit_app.py lines 307 and 319:
`lambda x: x if x in top else other`. -/
def bucket (top : List Value) (other : String) (x : Value) : Value :=
  if x ∈ top then x else Value.str other

/-- A row whose every cell is the number 0. -/
def baseRow : Row := fun _ => Value.int 0

/-- Override a single cell of a row (used only to build concrete test tables). -/
def setF (r : Row) (f : Field) (v : Value) : Row :=
  fun g => if g = f then v else r g

/-- The 4-row table of the spec's concrete scenario:
`TARGET` = [1,0,1,1] and `GENDER` = [1,1,0,1]. -/
def demoT4 : Table :=
  ⟨allCols,
   [setF (setF baseRow Field.TARGET (Value.int 1)) Field.GENDER (Value.int 1),
    setF (setF baseRow Field.TARGET (Value.int 0)) Field.GENDER (Value.int 1),
    setF (setF baseRow Field.TARGET (Value.int 1)) Field.GENDER (Value.int 0),
    setF (setF baseRow Field.TARGET (Value.int 1)) Field.GENDER (Value.int 1)]⟩

/-- A two-row table whose TARGET values are 0 and 1. -/
def demoT2 : Table :=
  ⟨allCols, [setF baseRow Field.TARGET (Value.int 0), setF baseRow Field.TARGET (Value.int 1)]⟩

/-- A one-row table, standing for the parse of the CSV at the app's fixed path. -/
def demoT1 : Table := ⟨allCols, [baseRow]⟩

/-- The empty table, standing for the parse of a different CSV. -/
def demoT0 : Table := ⟨allCols, []⟩

/-- A model filesystem for `load_data`: the CSV at `DATA_PATH` parses to the
one-row table, the CSV at any other path to the empty table. -/
def demoFS : String → Table := fun p => if p = DATA_PATH then demoT1 else demoT0

/-- Splitting a list by a boolean predicate preserves its length. -/
theorem length_filter_add_length_filter_not {α : Type} (p : α → Bool) (l : List α) :
    (l.filter p).length + (l.filter (fun a => !(p a))).length = l.length := by
  induction l with
  | nil => rfl
  | cons a l ih =>
    by_cases h : p a = true
    · rw [List.filter_cons_of_pos h, List.filter_cons_of_neg (by simp [h])]
      simp only [List.length_cons]
      omega
    · rw [List.filter_cons_of_neg h, List.filter_cons_of_pos (by simp [h])]
      simp only [List.length_cons]
      omega

/-- Every value listed by `uniqueAux seen l` occurs in `l` and is not in `seen`. -/
theorem mem_uniqueAux {w : Value} :
    ∀ {l seen : List Value}, w ∈ uniqueAux seen l → w ∈ l ∧ w ∉ seen := by
  intro l
  induction l with
  | nil => intro seen h; simp [uniqueAux] at h
  | cons v vs ih =>
    intro seen h
    simp only [uniqueAux] at h
    by_cases hv : v ∈ seen
    · rw [if_pos hv] at h
      obtain ⟨h1, h2⟩ := ih h
      exact ⟨List.mem_cons_of_mem _ h1, h2⟩
    · rw [if_neg hv] at h
      rcases List.mem_cons.mp h with rfl | h
      · exact ⟨List.mem_cons_self _ _, hv⟩
      · obtain ⟨h1, h2⟩ := ih h
        exact ⟨List.mem_cons_of_mem _ h1, fun hs => h2 (List.mem_cons_of_mem _ hs)⟩

/-- Every value listed by `uniqueVals l` occurs in `l`. -/
theorem mem_uniqueVals {w : Value} {l : List Value} (h : w ∈ uniqueVals l) : w ∈ l :=
  (mem_uniqueAux h).1

/-- Counting a value in a list headed by that value. -/
theorem countVal_cons_self (v : Value) (vs : List Value) :
    countVal (v :: vs) v = countVal vs v + 1 := by
  simp [countVal, List.filter_cons]

/-- Counting a value in a list headed by a different value. -/
theorem countVal_cons_ne {v w : Value} (vs : List Value) (h : v ≠ w) :
    countVal (v :: vs) w = countVal vs w := by
  simp [countVal, List.filter_cons, h]

/-- Filtering by a predicate the counted value satisfies does not change its count. -/
theorem countVal_filter (p : Value → Bool) (l : List Value) (w : Value)
    (hw : p w = true) : countVal (l.filter p) w = countVal l w := by
  unfold countVal
  rw [List.filter_filter]
  congr 1
  apply List.filter_congr
  intro a _
  by_cases h : a = w
  · subst h; simp [hw]
  · simp [h]

/-- A list splits into the copies of `v` and the elements different from `v`. -/
theorem countVal_partition (l : List Value) (v : Value) :
    countVal l v + (l.filter (fun x => decide (x ≠ v))).length = l.length := by
  have h : l.filter (fun x => decide (x ≠ v)) =
      l.filter (fun x => !(decide (x = v))) := by
    apply List.filter_congr
    intro a _
    by_cases h : a = v <;> simp [h]
  unfold countVal
  rw [h]
  exact length_filter_add_length_filter_not _ l

/-- Keeping the values outside `v :: seen` is keeping those outside `seen` and then
dropping the copies of `v`. -/
theorem filter_notMem_cons (vs seen : List Value) (v : Value) :
    vs.filter (fun x => decide (x ∉ v :: seen)) =
      (vs.filter (fun x => decide (x ∉ seen))).filter (fun x => decide (x ≠ v)) := by
  rw [List.filter_filter]
  apply List.filter_congr
  intro a _
  by_cases h1 : a = v
  · subst h1; simp
  · by_cases h2 : a ∈ seen <;> simp [h1, h2]

/-- The counts of the first-seen distinct values outside `seen` add up to the number
of list elements outside `seen`. -/
theorem sum_countVal_uniqueAux :
    ∀ (l seen : List Value),
      ((uniqueAux seen l).map (fun v => countVal l v)).sum =
        (l.filter (fun x => decide (x ∉ seen))).length := by
  intro l
  induction l with
  | nil => intro seen; rfl
  | cons v vs ih =>
    intro seen
    by_cases hv : v ∈ seen
    · simp only [uniqueAux, if_pos hv]
      have hcong : (uniqueAux seen vs).map (fun w => countVal (v :: vs) w) =
          (uniqueAux seen vs).map (fun w => countVal vs w) := by
        apply List.map_congr_left
        intro w hw
        exact countVal_cons_ne vs (fun h => (mem_uniqueAux hw).2 (h ▸ hv))
      rw [hcong, ih seen, List.filter_cons_of_neg (by simp [hv])]
    · simp only [uniqueAux, if_neg hv, List.map_cons, List.sum_cons]
      have hcong : (uniqueAux (v :: seen) vs).map (fun w => countVal (v :: vs) w) =
          (uniqueAux (v :: seen) vs).map (fun w => countVal vs w) := by
        apply List.map_congr_left
        intro w hw
        exact countVal_cons_ne vs
          (fun h => (mem_uniqueAux hw).2 (h ▸ List.mem_cons_self v seen))
      rw [hcong, ih (v :: seen), List.filter_cons_of_pos (by simp [hv]),
        countVal_cons_self, filter_notMem_cons vs seen v]
      have hpart := countVal_partition (vs.filter (fun x => decide (x ∉ seen))) v
      rw [countVal_filter _ _ _ (by simp [hv])] at hpart
      simp only [List.length_cons]
      omega

/-- The counts attached to the distinct values of `l` add up to the length of `l`. -/
theorem sum_countVal_uniqueVals (l : List Value) :
    ((uniqueVals l).map (fun v => countVal l v)).sum = l.length := by
  unfold uniqueVals
  rw [sum_countVal_uniqueAux l []]
  have h : l.filter (fun x => decide (x ∉ ([] : List Value))) = l :=
    List.filter_eq_self.mpr (fun a _ => by simp)
  rw [h]

/-- First-seen deduplication commutes with filtering, given that the two `seen`
accumulators agree on the values kept by the filter. -/
theorem uniqueAux_filter (p : Value → Bool) :
    ∀ (l seen₁ seen₂ : List Value),
      (∀ x, p x = true → (x ∈ seen₁ ↔ x ∈ seen₂)) →
      uniqueAux seen₁ (l.filter p) = (uniqueAux seen₂ l).filter p := by
  intro l
  induction l with
  | nil => intro s1 s2 _; rfl
  | cons v vs ih =>
    intro s1 s2 h
    cases hp : p v with
    | false =>
      rw [List.filter_cons_of_neg (by simp [hp])]
      simp only [uniqueAux]
      by_cases hv : v ∈ s2
      · rw [if_pos hv]
        exact ih s1 s2 h
      · rw [if_neg hv, List.filter_cons_of_neg (by simp [hp])]
        apply ih s1 (v :: s2)
        intro x hx
        have hxv : x ≠ v := by
          intro he
          rw [he] at hx
          exact Bool.noConfusion (hx.symm.trans hp)
        rw [h x hx, List.mem_cons]
        exact ⟨Or.inr, fun hh => hh.resolve_left hxv⟩
    | true =>
      rw [List.filter_cons_of_pos (by simp [hp])]
      simp only [uniqueAux]
      by_cases hv : v ∈ s2
      · rw [if_pos hv, if_pos ((h v hp).mpr hv)]
        exact ih s1 s2 h
      · rw [if_neg hv, if_neg (fun hc => hv ((h v hp).mp hc)),
          List.filter_cons_of_pos (by simp [hp])]
        congr 1
        apply ih (v :: s1) (v :: s2)
        intro x hx
        simp only [List.mem_cons]
        exact or_congr Iff.rfl (h x hx)

/-- First-seen deduplication commutes with filtering. -/
theorem uniqueVals_filter (p : Value → Bool) (l : List Value) :
    uniqueVals (l.filter p) = (uniqueVals l).filter p :=
  uniqueAux_filter p l [] [] (fun _ _ => Iff.rfl)

/-- `value_counts` is a permutation of the first-seen distinct values paired with
their counts. -/
theorem value_counts_perm (l : List Value) :
    List.Perm (value_counts l) ((uniqueVals l).map (fun v => (v, countVal l v))) :=
  List.perm_insertionSort _ _

/-- The counts of a `value_counts` table add up to the length of the column. -/
theorem sumCounts_value_counts (l : List Value) :
    ((value_counts l).map (fun e => e.2)).sum = l.length := by
  have h := ((value_counts_perm l).map (fun e : Value × Nat => e.2)).sum_eq
  rw [h, List.map_map]
  exact sum_countVal_uniqueVals l

/-- Every entry of a `value_counts` table is a value of the column paired with its
exact number of occurrences. -/
theorem mem_value_counts {l : List Value} {e : Value × Nat} (he : e ∈ value_counts l) :
    e.1 ∈ l ∧ e.2 = countVal l e.1 := by
  have h := (value_counts_perm l).mem_iff.mp he
  rcases List.mem_map.mp h with ⟨v, hv, rfl⟩
  exact ⟨mem_uniqueVals hv, rfl⟩

/-- The `> 0` test applied to the WORK_TIME column of the aggregated table at
src/streamlit_app.py line 327 (`source[source.WORK_TIME > 0]`); comparing a
string with 0 would raise in pandas, but WORK_TIME is numeric. -/
def valuePos : Value → Bool
  | Value.int n => decide (0 < n)
  | Value.str _ => false

/-- The top-10 industries pipeline (src/streamlit_app.py lines 300-310) up to the
aggregated table handed to the pie chart: filter by TARGET, drop the
`'not_applicable'` rows, compute the top-10 industries, overwrite GEN_INDUSTRY
with the bucketed value, and re-aggregate GEN_INDUSTRY. -/
def tab2_industries_agg (data : Table) (t : Int) : List (Value × Nat) :=
  let source := filter_data data t
  let source := mask_ne source Field.GEN_INDUSTRY "not_applicable"
  let top10 := top_values (colOf source Field.GEN_INDUSTRY) 10
  let source := set_column source Field.GEN_INDUSTRY
    (fun r => bucket top10 "Другие сферы" (r Field.GEN_INDUSTRY))
  value_counts (colOf source Field.GEN_INDUSTRY)

/-- The top-10 job-titles pipeline (src/streamlit_app.py lines 312-321) up to the
aggregated table handed to the pie chart.  Line 319 writes the bucketed titles
into the `GEN_INDUSTRY` column (`source['GEN_INDUSTRY'] = source.GEN_TITLE.apply(...)`)
and line 320 then re-aggregates the untouched `GEN_TITLE` column. -/
def tab2_job_titles_agg (data : Table) (t : Int) : List (Value × Nat) :=
  let source := filter_data data t
  let source := mask_ne source Field.GEN_TITLE "not_applicable"
  let top10 := top_values (colOf source Field.GEN_TITLE) 10
  let source := set_column source Field.GEN_INDUSTRY
    (fun r => bucket top10 "Другое" (r Field.GEN_TITLE))
  value_counts (colOf source Field.GEN_TITLE)

/-- The WORK_TIME pipeline (src/streamlit_app.py lines 323-329): `value_counts`
of the filtered WORK_TIME column first, then the count-table rows whose
WORK_TIME value is not positive are dropped. -/
def tab2_work_time_agg (data : Table) (t : Int) : List (Value × Nat) :=
  (value_counts (colOf (filter_data data t) Field.WORK_TIME)).filter
    (fun e => valuePos e.1)

/-- Reading back the column that a column assignment wrote. -/
theorem colOf_set_column_self (t : Table) (c : Field) (g : Row → Value) :
    colOf (set_column t c g) c = t.rows.map g := by
  simp [colOf, set_column]

/-- Reading a column a column assignment did not touch. -/
theorem colOf_set_column_ne (t : Table) (c f : Field) (g : Row → Value) (h : f ≠ c) :
    colOf (set_column t c g) f = colOf t f := by
  simp [colOf, set_column, h]

/-- Rows surviving a sentinel mask are original rows without the sentinel. -/
theorem mem_mask_ne {T : Table} {f : Field} {s : String} {r : Row}
    (hr : r ∈ (mask_ne T f s).rows) : r ∈ T.rows ∧ r f ≠ Value.str s := by
  simp only [mask_ne] at hr
  have h := List.mem_filter.mp hr
  exact ⟨h.1, by simpa using h.2⟩

/-- C6: the job/industry aggregations operate only over the rows left after the
not-applicable sentinel is excluded.  For GEN_INDUSTRY and GEN_TITLE the counted
totals equal the number of rows surviving the `!= 'not_applicable'` mask and no
sentinel value is ever counted; for WORK_TIME every surviving entry has a
positive value and carries the count of that value among the positive-WORK_TIME
rows only, and the counted total equals the number of those remaining rows. -/
theorem C6_sentinel_exclusion (data : Table) (t : Int) :
    (((tab2_industries_agg data t).map (fun e => e.2)).sum =
        (mask_ne (filter_data data t) Field.GEN_INDUSTRY "not_applicable").rows.length ∧
      ∀ e ∈ tab2_industries_agg data t, e.1 ≠ Value.str "not_applicable") ∧
    (((tab2_job_titles_agg data t).map (fun e => e.2)).sum =
        (mask_ne (filter_data data t) Field.GEN_TITLE "not_applicable").rows.length ∧
      ∀ e ∈ tab2_job_titles_agg data t, e.1 ≠ Value.str "not_applicable") ∧
    (((tab2_work_time_agg data t).map (fun e => e.2)).sum =
        ((colOf (filter_data data t) Field.WORK_TIME).filter valuePos).length ∧
      ∀ e ∈ tab2_work_time_agg data t, valuePos e.1 = true ∧
        e.2 = countVal ((colOf (filter_data data t) Field.WORK_TIME).filter valuePos) e.1) := by
  refine ⟨⟨?_, ?_⟩, ⟨?_, ?_⟩, ?_, ?_⟩
  · simp only [tab2_industries_agg]
    rw [sumCounts_value_counts, colOf_set_column_self, List.length_map]
  · intro e he
    simp only [tab2_industries_agg] at he
    have h1 := (mem_value_counts he).1
    rw [colOf_set_column_self] at h1
    rcases List.mem_map.mp h1 with ⟨r, hr, heq⟩
    rw [← heq]
    unfold bucket
    by_cases hb : r Field.GEN_INDUSTRY ∈
        top_values (colOf (mask_ne (filter_data data t) Field.GEN_INDUSTRY
          "not_applicable") Field.GEN_INDUSTRY) 10
    · rw [if_pos hb]
      exact (mem_mask_ne hr).2
    · rw [if_neg hb]
      simp
  · simp only [tab2_job_titles_agg]
    rw [colOf_set_column_ne _ _ _ _ (by decide), sumCounts_value_counts]
    simp [colOf]
  · intro e he
    simp only [tab2_job_titles_agg] at he
    rw [colOf_set_column_ne _ _ _ _ (by decide)] at he
    have h1 := (mem_value_counts he).1
    simp only [colOf] at h1
    rcases List.mem_map.mp h1 with ⟨r, hr, heq⟩
    rw [← heq]
    exact (mem_mask_ne hr).2
  · simp only [tab2_work_time_agg]
    have hperm := (((value_counts_perm (colOf (filter_data data t) Field.WORK_TIME)).filter
      (fun e => valuePos e.1)).map (fun e : Value × Nat => e.2)).sum_eq
    rw [hperm, List.filter_map, List.map_map]
    have hc1 : ((fun e : Value × Nat => valuePos e.1) ∘
        (fun v => (v, countVal (colOf (filter_data data t) Field.WORK_TIME) v))) =
        valuePos := rfl
    have hc2 : ((fun e : Value × Nat => e.2) ∘
        (fun v => (v, countVal (colOf (filter_data data t) Field.WORK_TIME) v))) =
        fun v => countVal (colOf (filter_data data t) Field.WORK_TIME) v := rfl
    rw [hc1, hc2]
    have hcong : ((uniqueVals (colOf (filter_data data t) Field.WORK_TIME)).filter
          valuePos).map
          (fun w => countVal (colOf (filter_data data t) Field.WORK_TIME) w) =
        ((uniqueVals (colOf (filter_data data t) Field.WORK_TIME)).filter
          valuePos).map
          (fun w => countVal ((colOf (filter_data data t) Field.WORK_TIME).filter
            valuePos) w) := by
      apply List.map_congr_left
      intro w hw
      exact (countVal_filter valuePos _ w (List.mem_filter.mp hw).2).symm
    rw [hcong, ← uniqueVals_filter]
    exact sum_countVal_uniqueVals _
  · intro e he
    simp only [tab2_work_time_agg] at he
    obtain ⟨hvc, hpos⟩ := List.mem_filter.mp he
    refine ⟨hpos, ?_⟩
    rw [(mem_value_counts hvc).2]
    exact (countVal_filter valuePos _ e.1 hpos).symm

/-- The percent column computed inside `bar_chart` (src/streamlit_app.py
lines 108-115): `total = sum(count)` over the supplied aggregated table and
`percent = count / total` for each of its rows. -/
def bar_chart_percents (source : List (Value × Nat)) : List ℚ :=
  source.map (fun e => (e.2 : ℚ) / ((source.map (fun x => x.2)).sum : ℚ))

/-- The source handed to the EDUCATION pie chart (src/streamlit_app.py
lines 209-211): `value_counts` of the filtered EDUCATION column with the count
column merely renamed to `percent` — its entries are raw counts. -/
def tab1_education_pie_source (data : Table) (t : Int) : List (Value × Nat) :=
  value_counts (colOf (filter_data data t) Field.EDUCATION)

/-- Casting the counts of an aggregated table to rationals and summing them is
the cast of their natural-number sum. -/
theorem sum_map_cast_counts (s : List (Value × Nat)) :
    (s.map (fun e => (e.2 : ℚ))).sum = (((s.map (fun e => e.2)).sum : ℕ) : ℚ) := by
  induction s with
  | nil => simp
  | cons a s ih => simp [ih]

/-- The derived percent column of a bar chart over an unexcluded `value_counts`
table sums to 1 for a non-empty column. -/
theorem bar_chart_percents_sum (l : List Value) (hl : l ≠ []) :
    (bar_chart_percents (value_counts l)).sum = 1 := by
  unfold bar_chart_percents
  simp only [div_eq_mul_inv]
  rw [List.sum_map_mul_right, sum_map_cast_counts, sumCounts_value_counts]
  exact mul_inv_cancel₀ (Nat.cast_ne_zero.mpr (fun h => hl (List.length_eq_zero.mp h)))

/-- A three-row table, all with TARGET 1, whose EDUCATION column is
["a", "a", "b"]. -/
def demoT3 : Table :=
  ⟨allCols,
   [setF (setF baseRow Field.TARGET (Value.int 1)) Field.EDUCATION (Value.str "a"),
    setF (setF baseRow Field.TARGET (Value.int 1)) Field.EDUCATION (Value.str "a"),
    setF (setF baseRow Field.TARGET (Value.int 1)) Field.EDUCATION (Value.str "b")]⟩

/-- C9 counterexample: on a concrete 3-row table with no excluded rows, the
`percent` column supplied to the EDUCATION pie specification holds the raw
counts [2, 1]; it sums to 3, the total row count, not to 1.0 (the arc lengths
are normalized only inside the renderer, by `stack='normalize'`). -/
theorem C9_counterexample :
    ((tab1_education_pie_source demoT3 1).map (fun e => (e.2 : ℚ))).sum = 3 ∧
    ((tab1_education_pie_source demoT3 1).map (fun e => (e.2 : ℚ))).sum ≠ 1 := by
  have h : tab1_education_pie_source demoT3 1 =
      [(Value.str "a", 2), (Value.str "b", 1)] := by decide
  rw [h]
  norm_num

/-- C9 amended: for a non-empty filtered table with no excluded rows, the
percentage shares `count / total` derived inside the bar specification sum
to 1; the column supplied to the pie specification holds raw counts and sums to
the total row count of the filtered table instead. -/
theorem C9_amended (T : Table) (t : Int) (f : Field)
    (h : (filter_data T t).rows ≠ []) :
    (bar_chart_percents (value_counts (colOf (filter_data T t) f))).sum = 1 ∧
    ((tab1_education_pie_source T t).map (fun e => (e.2 : ℚ))).sum =
      (((filter_data T t).rows.length : ℕ) : ℚ) := by
  constructor
  · apply bar_chart_percents_sum
    intro hc
    apply h
    simp only [colOf] at hc
    exact List.map_eq_nil_iff.mp hc
  · unfold tab1_education_pie_source
    rw [sum_map_cast_counts, sumCounts_value_counts]
    simp [colOf]

/-- Witness for the amended C9 at the concrete 3-row table: shares sum to 1 for
the GENDER bar chart and the pie column sums to the row count 3. -/
theorem C9_amended_witness :
    ((filter_data demoT3 1).rows ≠ []) ∧
    ((bar_chart_percents (value_counts (colOf (filter_data demoT3 1) Field.GENDER))).sum = 1 ∧
     ((tab1_education_pie_source demoT3 1).map (fun e => (e.2 : ℚ))).sum =
       (((filter_data demoT3 1).rows.length : ℕ) : ℚ)) :=
  ⟨by decide, C9_amended demoT3 1 Field.GENDER (by decide)⟩

/-- A row with TARGET 1 and the given job title. -/
def titleRow (s : String) : Row :=
  setF (setF baseRow Field.TARGET (Value.int 1)) Field.GEN_TITLE (Value.str s)

/-- A 12-row table whose GEN_TITLE column holds 12 distinct titles, none of them
the sentinel. -/
def demoT12 : Table :=
  ⟨allCols,
   (["t01", "t02", "t03", "t04", "t05", "t06", "t07", "t08", "t09", "t10", "t11",
     "t12"].map titleRow)⟩

/-- C2 at the failing input: on a table with 12 distinct job titles the final
aggregation of the top-10 job-titles section has 12 buckets — more than the 11
the claim allows — none of which is the `'Другое'` bucket, and its bucket values
are exactly the 12 original titles: line 319 stores the bucketed titles in
`GEN_INDUSTRY`, so line 320 re-aggregates the untouched `GEN_TITLE` column. -/
theorem C2_job_titles_eval :
    (tab2_job_titles_agg demoT12 1).length = 12 ∧
    (∀ e ∈ tab2_job_titles_agg demoT12 1, e.1 ≠ Value.str "Другое") ∧
    (tab2_job_titles_agg demoT12 1).map (fun e => e.1) =
      ["t01", "t02", "t03", "t04", "t05", "t06", "t07", "t08", "t09", "t10", "t11",
       "t12"].map Value.str := by
  exact ⟨by decide, by decide, by decide⟩

/-- The Python object heap used for the mutation analysis of tab 2: each address
(a list index) holds one dataframe. -/
abbrev Heap := List Table

/-- A pandas operation that returns a fresh frame allocates a new address. -/
def halloc (h : Heap) (t : Table) : Heap × Nat := (h ++ [t], h.length)

/-- Reading the frame an address points to. -/
def hread (h : Heap) (a : Nat) : Table := h.getD a ⟨[], []⟩

/-- Pandas column assignment `df[c] = ...` mutates the frame object in place:
the table at the existing address is overwritten. -/
def hwrite (h : Heap) (a : Nat) (t : Table) : Heap := h.set a t

/-- The top-10 industries section (src/streamlit_app.py lines 302-308) with
explicit object identity: the `filter_data` call (its `st.cache_data` wrapper
hands out a fresh copy) and the boolean-mask indexing of line 304 allocate new
frames; the column assignment of line 307 overwrites in place the frame that
`source` is bound to.  Returns the final heap and the address `source` points
to before the final `value_counts` of line 308. -/
def tab2_industries_run (h0 : Heap) (dataAddr : Nat) (t : Int) : Heap × Nat :=
  let s1 := halloc h0 (filter_data (hread h0 dataAddr) t)
  let s2 := halloc s1.1 (mask_ne (hread s1.1 s1.2) Field.GEN_INDUSTRY "not_applicable")
  let top10 := top_values (colOf (hread s2.1 s2.2) Field.GEN_INDUSTRY) 10
  let h3 := hwrite s2.1 s2.2 (set_column (hread s2.1 s2.2) Field.GEN_INDUSTRY
    (fun r => bucket top10 "Другие сферы" (r Field.GEN_INDUSTRY)))
  (h3, s2.2)

/-- A row with TARGET 1 and the given industry. -/
def indRow (s : String) : Row :=
  setF (setF baseRow Field.TARGET (Value.int 1)) Field.GEN_INDUSTRY (Value.str s)

/-- An 11-row table whose GEN_INDUSTRY column holds 11 distinct industries, none
of them the sentinel. -/
def demoT11 : Table :=
  ⟨allCols,
   (["i01", "i02", "i03", "i04", "i05", "i06", "i07", "i08", "i09", "i10",
     "i11"].map indRow)⟩

/-- C5 counterexample: running the industries section on a heap holding the
loaded 11-industry table, the derived frame at address 2 — the one allocated by
the sentinel mask of line 304 — afterwards differs in its GEN_INDUSTRY values
from the table originally stored there: the bucketing step of line 307 mutated
a derived table in place (the 11th industry became `'Другие сферы'`) instead of
producing a new table. -/
theorem C5_counterexample :
    colOf (hread (tab2_industries_run [demoT11] 0 1).1 2) Field.GEN_INDUSTRY ≠
      colOf (mask_ne (filter_data demoT11 1) Field.GEN_INDUSTRY "not_applicable")
        Field.GEN_INDUSTRY := by
  decide

/-- Reading an address other than the one written is unaffected. -/
theorem hread_set_ne (h : Heap) (a b : Nat) (t : Table) (hab : a ≠ b) :
    hread (h.set a t) b = hread h b := by
  unfold hread
  rw [List.getD_eq_getElem?_getD, List.getD_eq_getElem?_getD, List.getElem?_set_ne hab]

/-- Reading an address below the old length is unaffected by appended frames. -/
theorem hread_append_lt (h hs : Heap) (b : Nat) (hb : b < h.length) :
    hread (h ++ hs) b = hread h b := by
  unfold hread
  rw [List.getD_eq_getElem?_getD, List.getD_eq_getElem?_getD,
    List.getElem?_append_left hb]

/-- C5 amended: the loaded table itself is never mutated — running the
industries section leaves the frame at the data address untouched; the in-place
column assignment only hits the derived intermediate frame, which lives at the
fresh address `h0.length + 1`. -/
theorem C5_amended (h0 : Heap) (dataAddr : Nat) (t : Int)
    (hd : dataAddr < h0.length) :
    hread (tab2_industries_run h0 dataAddr t).1 dataAddr = hread h0 dataAddr ∧
    (tab2_industries_run h0 dataAddr t).2 = h0.length + 1 := by
  have hlen : (h0 ++ [filter_data (hread h0 dataAddr) t]).length = h0.length + 1 := by
    simp
  constructor
  · simp only [tab2_industries_run, halloc, hwrite]
    rw [hread_set_ne _ _ _ _ (by rw [hlen]; omega)]
    rw [List.append_assoc]
    exact hread_append_lt _ _ _ hd
  · simp only [tab2_industries_run, halloc, hwrite]
    exact hlen

/-- Witness for the amended C5: on the one-table heap holding the 11-industry
table, the loaded table at address 0 is unchanged by the section. -/
theorem C5_amended_witness :
    (0 < ([demoT11] : Heap).length) ∧
    (hread (tab2_industries_run [demoT11] 0 1).1 0 = hread [demoT11] 0 ∧
     (tab2_industries_run [demoT11] 0 1).2 = ([demoT11] : Heap).length + 1) :=
  ⟨by decide, C5_amended [demoT11] 0 1 (by decide)⟩

/-- The `data_types` mapping of `phik_data` (src/streamlit_app.py lines 55-74):
the 19 fields the correlation is computed over, with their type tags. -/
def data_types : List (Field × String) :=
  [(Field.TARGET, "categorical"), (Field.AGE, "interval"),
   (Field.GENDER, "categorical"), (Field.EDUCATION, "categorical"),
   (Field.MARITAL_STATUS, "categorical"), (Field.CHILD_TOTAL, "ordinal"),
   (Field.DEPENDANTS, "ordinal"), (Field.SOCSTATUS_WORK_FL, "categorical"),
   (Field.SOCSTATUS_PENS_FL, "categorical"), (Field.FL_PRESENCE_FL, "categorical"),
   (Field.OWN_AUTO, "ordinal"), (Field.WORK_TIME, "interval"),
   (Field.FAMILY_INCOME, "ordinal"), (Field.PERSONAL_INCOME, "interval"),
   (Field.LOAN_NUM_TOTAL, "ordinal"), (Field.LOAN_NUM_CLOSED, "ordinal"),
   (Field.CREDIT, "interval"), (Field.TERM, "interval"),
   (Field.FST_PAYMENT, "interval")]

/-- `list(data_types.keys())`: the declared correlation fields, in order. -/
def phik_fields : List Field := data_types.map (fun p => p.1)

/-- `interval_cols` (src/streamlit_app.py line 76): the fields tagged interval,
handed to the library call for 20-bin discretization. -/
def interval_cols : List Field :=
  (data_types.filter (fun p => decide (p.2 = "interval"))).map (fun p => p.1)

/-- Rounding a score to tenths, ties to even — the rounding `'{:.1f}'.format`
performs; returns the number of tenths. -/
def round1 (q : ℚ) : Int :=
  let x := q * 10
  let f := x.floor
  if x - (f : ℚ) < 1 / 2 then f
  else if 1 / 2 < x - (f : ℚ) then f + 1
  else if f % 2 = 0 then f else f + 1

/-- The label `'{:.1f}'.format(score)` of src/streamlit_app.py line 82, modelled
over rational scores. -/
def fmt1 (q : ℚ) : String :=
  let n := round1 q
  (if n < 0 then "-" else "") ++ toString (n.natAbs / 10) ++ "." ++ toString (n.natAbs % 10)

/-- One row of the long-format correlation table produced by
`.stack().reset_index().rename(...)`: the source columns are named `variable`,
`variable2`, `correlation` and `correlation_label` (`variable` is a Lean keyword,
so the first column is called `var` here). -/
structure CorrRow where
  var : Field
  var2 : Field
  correlation : ℚ
  correlation_label : String

/-- Model of `phik_data` (src/streamlit_app.py lines 48-84).  The score matrix
itself is produced by the external phik library
(`df[list(data_types.keys())].phik_matrix(interval_cols=interval_cols, bins=20)`),
modelled by the abstract score function `M`; `.stack().reset_index()` reshapes
the 19×19 matrix into one long-format row per ordered pair of declared fields,
in row-major order, and line 82 appends the formatted score label. -/
def phik_data (M : Field → Field → ℚ) : List CorrRow :=
  phik_fields.flatMap (fun a => phik_fields.map (fun b => ⟨a, b, M a b, fmt1 (M a b)⟩))

/-- C1: `filter_data T v` returns exactly the rows of `T` whose TARGET cell equals
`v` (soundness and completeness), as a sublist of `T.rows` (original order kept),
and — when every TARGET lies in {0, 1} and `v` does too — the matching row count
plus the count for the complementary label `1 - v` equals the total row count. -/
theorem C1_filter_data_exact (T : Table) (v : Int)
    (hv : v = 0 ∨ v = 1)
    (hT : ∀ r ∈ T.rows, r Field.TARGET = Value.int 0 ∨ r Field.TARGET = Value.int 1) :
    (∀ r ∈ (filter_data T v).rows, r Field.TARGET = Value.int v) ∧
    (∀ r ∈ T.rows, r Field.TARGET = Value.int v → r ∈ (filter_data T v).rows) ∧
    (filter_data T v).rows.Sublist T.rows ∧
    (filter_data T v).rows.length + (filter_data T (1 - v)).rows.length = T.rows.length := by
  refine ⟨?_, ?_, List.filter_sublist _, ?_⟩
  · intro r hr
    simp only [filter_data, List.mem_filter, decide_eq_true_eq] at hr
    exact hr.2
  · intro r hr hrt
    simp only [filter_data, List.mem_filter, decide_eq_true_eq]
    exact ⟨hr, hrt⟩
  · simp only [filter_data]
    have hq : T.rows.filter (fun r => decide (r Field.TARGET = Value.int (1 - v))) =
        T.rows.filter (fun r => !(decide (r Field.TARGET = Value.int v))) := by
      apply List.filter_congr
      intro r hr
      rcases hT r hr with h | h <;> rcases hv with rfl | rfl <;> rw [h] <;> decide
    rw [hq]
    exact length_filter_add_length_filter_not _ _

/-- Witness for C1 at the spec's concrete 4-row scenario: filtering by label 1
keeps 3 rows. -/
theorem C1_filter_data_exact_witness :
    (((1 : Int) = 0 ∨ (1 : Int) = 1) ∧
     (∀ r ∈ demoT4.rows, r Field.TARGET = Value.int 0 ∨ r Field.TARGET = Value.int 1)) ∧
    ((∀ r ∈ (filter_data demoT4 1).rows, r Field.TARGET = Value.int 1) ∧
     (∀ r ∈ demoT4.rows, r Field.TARGET = Value.int 1 → r ∈ (filter_data demoT4 1).rows) ∧
     (filter_data demoT4 1).rows.Sublist demoT4.rows ∧
     (filter_data demoT4 1).rows.length + (filter_data demoT4 (1 - 1)).rows.length =
       demoT4.rows.length) ∧
    (filter_data demoT4 1).rows.length = 3 :=
  ⟨⟨Or.inr rfl, by decide⟩,
   C1_filter_data_exact demoT4 1 (Or.inr rfl) (by decide),
   by decide⟩

/-- C10: `filter_data` is a pure row filter: the column list (names and order) is
unchanged, the kept rows form an order-preserving sublist of the input rows, and
every kept row is literally a row of the input table, so all its field values are
unchanged. -/
theorem C10_filter_data_frame (T : Table) (v : Int) :
    (filter_data T v).cols = T.cols ∧
    (filter_data T v).rows.Sublist T.rows ∧
    ∀ r ∈ (filter_data T v).rows, r ∈ T.rows :=
  ⟨rfl, List.filter_sublist _, fun _ hr => List.mem_of_mem_filter hr⟩

/-- C8 counterexample: at the out-of-domain label 2, `filter_data` returns
normally — an empty frame with the same columns — rather than failing; the code
(`df[df["TARGET"] == target_selected]`) has no raise path and no
`InvalidFilterError` is defined anywhere in the repository. -/
theorem C8_counterexample :
    (filter_data demoT2 2).rows = [] ∧ (filter_data demoT2 2).cols = demoT2.cols := by
  exact ⟨by decide, rfl⟩

/-- C8 amended: for a label outside {0, 1} (given every TARGET lies in {0, 1}),
`filter_data` silently returns the empty table with the columns kept, instead of
raising an `InvalidFilterError`. -/
theorem C8_amended (T : Table) (v : Int)
    (hT : ∀ r ∈ T.rows, r Field.TARGET = Value.int 0 ∨ r Field.TARGET = Value.int 1)
    (h0 : v ≠ 0) (h1 : v ≠ 1) :
    (filter_data T v).rows = [] ∧ (filter_data T v).cols = T.cols := by
  refine ⟨?_, rfl⟩
  simp only [filter_data]
  rw [List.filter_eq_nil_iff]
  intro r hr
  rcases hT r hr with h | h <;> rw [h] <;>
    simp only [decide_eq_true_eq, Value.int.injEq] <;> omega

/-- Witness for the amended C8 at label 2 on a concrete two-row table. -/
theorem C8_amended_witness :
    ((∀ r ∈ demoT2.rows, r Field.TARGET = Value.int 0 ∨ r Field.TARGET = Value.int 1) ∧
     ((2 : Int) ≠ 0) ∧ ((2 : Int) ≠ 1)) ∧
    ((filter_data demoT2 2).rows = [] ∧ (filter_data demoT2 2).cols = demoT2.cols) :=
  ⟨⟨by decide, by decide, by decide⟩, C8_amended demoT2 2 (by decide) (by decide) (by decide)⟩

/-- C3: `load_data` evaluated at a path different from the module constant
`DATA_PATH` still returns the parse of the CSV at `DATA_PATH` (here a one-row
table) and not the parse of the CSV at the requested path (here an empty table):
the body reads `pd.read_csv(DATA_PATH)` and ignores its `data_path` argument. -/
theorem C3_load_data_ignores_path :
    load_data demoFS "other.csv" = demoFS DATA_PATH ∧
    (load_data demoFS "other.csv").rows.length = 1 ∧
    (demoFS "other.csv").rows.length = 0 :=
  ⟨rfl, by decide, by decide⟩

/-- C7: for any symmetric score matrix returned by the external phik library,
the long-format table of `phik_data` has exactly one row per ordered pair of the
19 declared fields — 361 rows, with both (A,B) and (B,A) present — every row
carries the score of its field pair together with that score formatted to one
decimal place as its label, and the (A,B) and (B,A) rows carry the identical
score. -/
theorem C7_phik_long_form (M : Field → Field → ℚ) (hM : ∀ a b, M a b = M b a) :
    phik_fields.length = 19 ∧
    (phik_data M).length = 361 ∧
    (∀ a ∈ phik_fields, ∀ b ∈ phik_fields,
      ((phik_data M).filter (fun r => decide (r.var = a ∧ r.var2 = b))).length = 1) ∧
    (∀ r ∈ phik_data M, r.var ∈ phik_fields ∧ r.var2 ∈ phik_fields ∧
      r.correlation = M r.var r.var2 ∧ r.correlation_label = fmt1 r.correlation) ∧
    (∀ r ∈ phik_data M, ∀ s ∈ phik_data M, r.var = s.var2 → r.var2 = s.var →
      r.correlation = s.correlation) := by
  refine ⟨rfl, rfl, ?_, ?_, ?_⟩
  · have hpairs : (phik_data M).map (fun r => (r.var, r.var2)) =
        phik_fields.flatMap (fun a => phik_fields.map (fun b => (a, b))) := rfl
    have hcount : ∀ a ∈ phik_fields, ∀ b ∈ phik_fields,
        List.countP (fun pr : Field × Field => decide (pr.1 = a ∧ pr.2 = b))
          (phik_fields.flatMap (fun a => phik_fields.map (fun b => (a, b)))) = 1 := by
      decide
    intro a ha b hb
    rw [← List.countP_eq_length_filter]
    have h2 : List.countP (fun r : CorrRow => decide (r.var = a ∧ r.var2 = b))
        (phik_data M) =
        List.countP (fun pr : Field × Field => decide (pr.1 = a ∧ pr.2 = b))
          ((phik_data M).map (fun r => (r.var, r.var2))) := by
      rw [List.countP_map]
      rfl
    rw [h2, hpairs]
    exact hcount a ha b hb
  · intro r hr
    simp only [phik_data, List.mem_flatMap, List.mem_map] at hr
    obtain ⟨a, ha, b, hb, rfl⟩ := hr
    exact ⟨ha, hb, rfl, rfl⟩
  · intro r hr s hs h1 h2
    simp only [phik_data, List.mem_flatMap, List.mem_map] at hr hs
    obtain ⟨a, ha, b, hb, rfl⟩ := hr
    obtain ⟨c, hc, d, hd, rfl⟩ := hs
    have h1a : a = d := h1
    have h2a : b = c := h2
    subst h1a
    subst h2a
    exact hM a b

/-- A concrete symmetric score function: every pair scores 1/2. -/
def constM : Field → Field → ℚ := fun _ _ => 1 / 2

/-- Witness for C7 at the constant symmetric score matrix. -/
theorem C7_phik_long_form_witness :
    (∀ a b : Field, constM a b = constM b a) ∧
    (phik_fields.length = 19 ∧
     (phik_data constM).length = 361 ∧
     (∀ a ∈ phik_fields, ∀ b ∈ phik_fields,
       ((phik_data constM).filter (fun r => decide (r.var = a ∧ r.var2 = b))).length = 1) ∧
     (∀ r ∈ phik_data constM, r.var ∈ phik_fields ∧ r.var2 ∈ phik_fields ∧
       r.correlation = constM r.var r.var2 ∧ r.correlation_label = fmt1 r.correlation) ∧
     (∀ r ∈ phik_data constM, ∀ s ∈ phik_data constM, r.var = s.var2 → r.var2 = s.var →
       r.correlation = s.correlation)) :=
  ⟨fun _ _ => rfl, C7_phik_long_form constM (fun _ _ => rfl)⟩

end BankPromo
